import Mathlib

/-!
# Verification of the KVideo manifest ad-filtering and source-switching core

Shallow embedding of the TypeScript sources:
* `m3u8-filter` (ad-pattern classifier, M3U8 parser, playlist rewriter),
* `error-handler` (`handleHLSError` recovery decisions),
* `source-checker` / source switcher (`shouldSwitchSource`, speed-test cache).

Strings are modelled as `List Char` (`Str`), with the JavaScript string
operations used by the sources (`split('\n')`, `join('\n')`, `trim`,
`startsWith`, `includes`, `toLowerCase`) re-implemented below so that all
reasoning stays elementary.
-/

namespace KVideo

/-- JavaScript strings are modelled as lists of characters. -/
abbrev Str := List Char

/-- Shorthand to build a `Str` from a Lean string literal. -/
def str (s : String) : Str := s.toList

/-- Whitespace recognised by JavaScript `String.prototype.trim` (ASCII part;
the sources only ever contain ASCII whitespace). -/
def isWsChar (c : Char) : Bool :=
  c = ' ' || c = '\t' || c = '\n' || c = '\r' || c = '\x0b' || c = '\x0c'

/-- JavaScript `s.trim()`: drop whitespace from both ends. -/
def trim (s : Str) : Str :=
  ((s.dropWhile isWsChar).reverse.dropWhile isWsChar).reverse

/-- JavaScript `s.startsWith(p)`, with the pattern first. -/
def strStarts : Str → Str → Bool
  | [], _ => true
  | _ :: _, [] => false
  | p :: ps, c :: cs => p = c && strStarts ps cs

/-- JavaScript `s.includes(pat)`: `pat` occurs as a contiguous substring. -/
def strHas (pat : Str) : Str → Bool
  | [] => pat.isEmpty
  | c :: rest => strStarts pat (c :: rest) || strHas pat rest

/-- JavaScript `s.toLowerCase()` (ASCII behaviour). -/
def toLowerS (s : Str) : Str := s.map Char.toLower

/-- JavaScript `content.split('\n')`.  Always returns at least one piece;
`"".split('\n') = [""]`. -/
def splitLines : Str → List Str
  | [] => [[]]
  | c :: rest =>
    let ls := splitLines rest
    if c = '\n' then [] :: ls
    else (c :: ls.headD []) :: ls.tail

/-- JavaScript `lines.join('\n')`. -/
def joinLines : List Str → Str
  | [] => []
  | [l] => l
  | l :: l' :: ls => l ++ '\n' :: joinLines (l' :: ls)


/-! ## M3U8 ad filtering (`m3u8-filter` source file)

`resolveUrl` wraps the platform WHATWG `new URL(url, base).href` constructor,
which is not part of the repository; it is passed in as `res`, returning
`none` when the constructor would throw (the source catches that and falls
back to the original text). -/

/-- `AD_PATTERNS` from the source. -/
def AD_PATTERNS : List Str :=
  [ "/ad/".toList, "/ads/".toList, "/advertisement/".toList, "/advert/".toList,
    "_ad_".toList, "_ads_".toList, "-ad-".toList, "-ads-".toList,
    "ad.ts".toList, "ad.m3u8".toList, "ads.ts".toList, "ads.m3u8".toList,
    "advert".toList, "commercial".toList, "/promo/".toList ]

/-- `AD_KEYWORDS` from the source. -/
def AD_KEYWORDS : List Str :=
  [ "advertisement".toList, "commercial".toList, "sponsored".toList,
    "promo".toList, "banner".toList ]

/-- `isAdSegment(url)`: lower-case the URL and test every built-in pattern
and keyword for substring containment. -/
def isAdSegment (url : Str) : Bool :=
  let lowerUrl := toLowerS url
  if AD_PATTERNS.any (fun pattern => strHas pattern lowerUrl) then true
  else if AD_KEYWORDS.any (fun keyword => strHas keyword lowerUrl) then true
  else false

/-- `resolveUrl(url, baseUrl)`: absolute `http(s)` URLs are returned as is;
otherwise `new URL(url, new URL(baseUrl)).href` (modelled by `res`), falling
back to the original text when the constructor throws (`res _ _ = none`). -/
def resolveUrl (res : Str → Str → Option Str) (url baseUrl : Str) : Str :=
  if strStarts ("http://".toList) url || strStarts ("https://".toList) url then
    url
  else
    match res url baseUrl with
    | some v => v
    | Option.none => url

/-- `M3U8Segment` from the source.  `durationTxt` holds the text matched by
the `/#EXTINF:([\d.]+)/` regular expression (the numeric value is never read
by any of the functions verified here, so the matched text is kept instead
of a floating-point number). -/
structure M3U8Segment where
  durationTxt : Option Str
  url : Str
  metadata : List Str
  isAd : Bool
deriving DecidableEq, Repr

def sEXTM3U : Str := "#EXTM3U".toList
def sEXTXdash : Str := "#EXT-X-".toList
def sEXTINF : Str := "#EXTINF".toList
def sEXTINFcolon : Str := "#EXTINF:".toList
def sHash : Str := "#".toList
def sDISCONTINUITY : Str := "DISCONTINUITY".toList
def sDiscTag : Str := "#EXT-X-DISCONTINUITY".toList

/-- The digit-and-dot run matched by `[\d.]+`. -/
def durRun (s : Str) : Str := s.takeWhile (fun c => c.isDigit || c = '.')

/-- Leftmost match of `/#EXTINF:([\d.]+)/`: the first position where
`#EXTINF:` occurs followed by at least one digit or dot. -/
def extinfDur : Str → Option Str
  | [] => Option.none
  | c :: rest =>
    if strStarts sEXTINFcolon (c :: rest) &&
        !(durRun (List.drop 8 (c :: rest))).isEmpty then
      some (durRun (List.drop 8 (c :: rest)))
    else extinfDur rest

/-- The scanning loop of `parseM3U8`, one step per source-line.  The index
arithmetic of the source (`i++` to consume the URI after `#EXTINF`) becomes
structural recursion; `inHeader` and `currentMetadata` are the loop's
mutable state. -/
def parseLoop (res : Str → Str → Option Str) (baseUrl : Str) :
    List Str → Bool → List Str → List Str × List M3U8Segment
  | [], _, _ => ([], [])
  | l :: rest, inHeader, currentMetadata =>
    let line := trim l
    if line.isEmpty then parseLoop res baseUrl rest inHeader currentMetadata
    else if strStarts sEXTM3U line then
      let r := parseLoop res baseUrl rest inHeader currentMetadata
      (line :: r.1, r.2)
    else if inHeader && strStarts sEXTXdash line then
      let r := parseLoop res baseUrl rest inHeader currentMetadata
      (line :: r.1, r.2)
    else if strStarts sEXTINF line then
      match rest with
      | [] => ([], [])
      | u :: rest2 =>
        let urlLine := trim u
        if !urlLine.isEmpty && !strStarts sHash urlLine then
          let seg : M3U8Segment :=
            { durationTxt := extinfDur line
              url := urlLine
              metadata := currentMetadata ++ [line]
              isAd := isAdSegment (resolveUrl res urlLine baseUrl) }
          let r := parseLoop res baseUrl rest2 false []
          (r.1, seg :: r.2)
        else parseLoop res baseUrl rest2 false (currentMetadata ++ [line])
    else if strStarts sHash line then
      if inHeader then
        let r := parseLoop res baseUrl rest inHeader currentMetadata
        (line :: r.1, r.2)
      else parseLoop res baseUrl rest inHeader (currentMetadata ++ [line])
    else parseLoop res baseUrl rest inHeader currentMetadata

/-- `parseM3U8(content, baseUrl)` from the source. -/
def parseM3U8 (res : Str → Str → Option Str) (content baseUrl : Str) :
    List Str × List M3U8Segment :=
  parseLoop res baseUrl (splitLines content) true []

/-- One metadata or URL line `includes('DISCONTINUITY')`. -/
def hasDiscTag (l : Str) : Bool := strHas sDISCONTINUITY l

/-- The rebuild loop of `filterM3U8Playlist`: emit, per retained segment, a
synthetic discontinuity directive when the flag demands one, then the
segment's metadata minus discontinuity lines, then its URL.  `prevExists`
tracks `i > 0` and `needsDiscontinuity` the source's flag of the same name
(initialised `false` by the source and never assigned `true`). -/
def rebuildLoop : List M3U8Segment → Bool → Bool → List Str
  | [], _, _ => []
  | segment :: rest, prevExists, needsDiscontinuity =>
    let needIns := prevExists && needsDiscontinuity
    let insertion :=
      if needIns && !(segment.metadata.any hasDiscTag) then [sDiscTag] else []
    let nd := if needIns then false else needsDiscontinuity
    insertion ++ segment.metadata.filter (fun l => !(hasDiscTag l)) ++
      [segment.url] ++ rebuildLoop rest true nd

/-- `filterM3U8Playlist(content, baseUrl)` from the source. -/
def filterM3U8Playlist (res : Str → Str → Option Str)
    (content baseUrl : Str) : Str :=
  let parsed := parseM3U8 res content baseUrl
  let filteredSegments := parsed.2.filter (fun segment => !segment.isAd)
  joinLines (parsed.1 ++ rebuildLoop filteredSegments false false)

/-- `addCustomAdPattern(pattern)` from the source, acting on the decoded
custom-pattern list persisted in `localStorage`. -/
def addCustomAdPattern (patterns : List Str) (pattern : Str) : List Str :=
  if patterns.contains pattern then patterns else patterns ++ [pattern]

/-! ## Error handler (`error-handler` source file) -/

/-- `ErrorType` enum from the source. -/
inductive ErrorType where
  | NETWORK_ERROR | MEDIA_ERROR | HLS_ERROR | API_ERROR | TIMEOUT | UNKNOWN
deriving DecidableEq, Repr

/-- The fields of the HLS.js `errorData` object that `handleHLSError`
reads: `type`, `details` (may be absent) and `fatal`. -/
structure ErrorData where
  etype : Str
  details : Option Str
  fatal : Bool
deriving DecidableEq, Repr

/-- `VideoError` from the source (`originalError` is the `errorData` that
was passed along). -/
structure VideoError where
  vtype : ErrorType
  message : Str
  originalError : Option ErrorData
  retryable : Bool
  retryCount : Option Nat
deriving DecidableEq, Repr

/-- `createVideoError` from the source. -/
def createVideoError (t : ErrorType) (message : Str)
    (originalError : Option ErrorData) (retryable : Bool) : VideoError :=
  { vtype := t, message := message, originalError := originalError,
    retryable := retryable, retryCount := some 0 }

/-- The `action` string union of `handleHLSError`'s result. -/
inductive HLSAction where
  | recoverMedia | startLoad | destroy | none
deriving DecidableEq, Repr

/-- The record returned by `handleHLSError`. -/
structure HLSErrorResult where
  shouldRetry : Bool
  action : HLSAction
  error : VideoError
deriving DecidableEq, Repr

def sNetworkError : Str := "networkError".toList
def sMediaError : Str := "mediaError".toList
def sBufferAppend : Str := "bufferAppendError".toList
def sBufferStalled : Str := "bufferStalledError".toList

/-- `handleHLSError(hls, errorData, retryCount)` from the source.  The `hls`
argument is never read by the function and is omitted.  The source's early
returns inside nested `if` blocks are flattened into one decision chain with
identical fall-through behaviour. -/
def handleHLSError (errorData : ErrorData) (retryCount : Nat) :
    HLSErrorResult :=
  let maxRetries := 3
  if errorData.etype = sNetworkError ∧ retryCount < maxRetries then
    { shouldRetry := true, action := HLSAction.startLoad,
      error := createVideoError ErrorType.NETWORK_ERROR
        ("Network error while loading video".toList) (some errorData) true }
  else if errorData.etype = sMediaError ∧ errorData.details = some sBufferAppend ∧
      retryCount < maxRetries then
    { shouldRetry := true, action := HLSAction.recoverMedia,
      error := createVideoError ErrorType.MEDIA_ERROR
        ("Buffer append error".toList) (some errorData) true }
  else if errorData.etype = sMediaError ∧ errorData.details = some sBufferStalled then
    { shouldRetry := true, action := HLSAction.startLoad,
      error := createVideoError ErrorType.MEDIA_ERROR
        ("Buffer stalled error".toList) (some errorData) true }
  else if errorData.etype = sMediaError ∧ retryCount < maxRetries then
    { shouldRetry := true, action := HLSAction.recoverMedia,
      error := createVideoError ErrorType.MEDIA_ERROR
        ("Media error occurred".toList) (some errorData) true }
  else if errorData.fatal then
    { shouldRetry := false, action := HLSAction.destroy,
      error := createVideoError ErrorType.HLS_ERROR
        ("Fatal HLS error".toList) (some errorData) false }
  else
    { shouldRetry := false, action := HLSAction.none,
      error := createVideoError ErrorType.HLS_ERROR
        (match errorData.details with
         | some d => if d.isEmpty then ("Unknown HLS error".toList) else d
         | Option.none => ("Unknown HLS error".toList))
        (some errorData) false }

/-- A playback session as seen by the caller of `handleHLSError`
(spec §4.7): a per-fault-class retry counter that grows by one whenever the
handler issues a retry, and a terminal flag that is set the first time it
declines one. -/
structure RecoverySession where
  retryCount : Nat
  fatal : Bool
deriving DecidableEq, Repr

/-- Feed one fault of the session's class into `handleHLSError`, applying
the caller contract: a granted retry bumps the counter, a declined one makes
the session terminal. -/
def stepFault (errorData : ErrorData) (s : RecoverySession) : RecoverySession :=
  if s.fatal then s
  else if (handleHLSError errorData s.retryCount).shouldRetry then
    { retryCount := s.retryCount + 1, fatal := false }
  else
    { retryCount := s.retryCount, fatal := true }

/-! ## Source switcher and speed-test cache (`source-checker` source file) -/

/-- `SourceSpeedResult` (the fields read by the functions verified here;
the optional `videoDetail` payload is never consulted by them and is
omitted).  `speed` is exact (`ℚ`); an unavailable result's `Infinity`
speed is never read by `shouldSwitchSource`. -/
structure SourceSpeedResult where
  source : Str
  sourceName : Str
  speed : ℚ
  available : Bool
  error : Option Str
deriving DecidableEq, Repr

/-- `shouldSwitchSource(currentResult, bestResult)` from the source. -/
def shouldSwitchSource (currentResult bestResult : SourceSpeedResult) : Bool :=
  if !currentResult.available then true
  else if !bestResult.available then false
  else
    let improvement :=
      (currentResult.speed - bestResult.speed) / currentResult.speed
    decide (improvement > 1/2)

/-- `recommendSwitch` exactly as the specification words it: true if the
current probe is unavailable; false if the best probe is unavailable;
otherwise true iff the best is more than 50% faster. -/
def recommendSwitchSpec (current best : SourceSpeedResult) : Bool :=
  if current.available = false then true
  else if best.available = false then false
  else decide ((current.speed - best.speed) / current.speed > 1/2)

/-- One entry of the speed-test cache: a ranked result list plus its
creation timestamp (`Date.now()` milliseconds). -/
structure SpeedCacheEntry where
  results : List SourceSpeedResult
  timestamp : ℤ
deriving DecidableEq, Repr

/-- `CACHE_DURATION = 5 * 60 * 1000`. -/
def CACHE_DURATION : ℤ := 5 * 60 * 1000

/-- `getCachedSpeedTest(videoTitle)` from the source, acting on the decoded
cache object (the `localStorage` JSON round-trip and the browser-environment
guard are outside the model: `cache` is the parsed map, `now` is
`Date.now()`). -/
def getCachedSpeedTest (cache : List (Str × SpeedCacheEntry)) (now : ℤ)
    (videoTitle : Str) : Option (List SourceSpeedResult) :=
  match cache.lookup videoTitle with
  | Option.none => Option.none
  | some cached =>
    if now - cached.timestamp > CACHE_DURATION then Option.none
    else some cached.results


/-! ## Specification-side notions and concrete test inputs -/

/-- A resolver on which the platform URL constructor always throws; by the
source's `catch`, resolution then falls back to the original URI text. -/
def resNone : Str → Str → Option Str := fun _ _ => Option.none

/-- A resolver that resolves every relative URI to itself. -/
def resId : Str → Str → Option Str := fun u _ => some u

/-- The specification's notion of a malformed manifest: some duration
directive (`#EXTINF`) line has no following URI line before end of input
(the immediately following line is missing, blank, or a comment). -/
def danglingExtinf : List Str → Bool
  | [] => false
  | l :: rest =>
    (strStarts sEXTINF (trim l) &&
      (match rest with
       | [] => true
       | u :: _ => (trim u).isEmpty || strStarts sHash (trim u))) ||
    danglingExtinf rest

/-- Well-formedness condition under which the second filtering pass is shown
to reproduce the first: every `#EXTINF` line is immediately followed by a
non-blank, non-comment URI line, and no `#EXTINF` line contains the
substring `DISCONTINUITY`. -/
def goodLines : List Str → Bool
  | [] => true
  | l :: rest =>
    (if strStarts sEXTINF (trim l) then
      (match rest with
       | [] => false
       | u :: _ => !(trim u).isEmpty && !strStarts sHash (trim u)) &&
      !hasDiscTag (trim l)
     else true) &&
    goodLines rest

/-- A line as stored by the parser: already trimmed, non-empty and free of
newlines. -/
def GoodLine (l : Str) : Prop := trim l = l ∧ l ≠ [] ∧ '\n' ∉ l

/-- A line the parser files under the header in header mode: a comment line
that is not a duration directive. -/
def HeadLine (l : Str) : Prop :=
  GoodLine l ∧ strStarts sHash l = true ∧ strStarts sEXTINF l = false

/-- A line accumulated into segment metadata ahead of the closing duration
directive: a comment that is neither the format marker nor (in the
well-formed case) a duration directive. -/
def MetaPre (l : Str) : Prop :=
  GoodLine l ∧ strStarts sHash l = true ∧ strStarts sEXTM3U l = false

def MetaPreStrict (l : Str) : Prop :=
  MetaPre l ∧ strStarts sEXTINF l = false

/-- A stored duration-directive line. -/
def ExtLine (l : Str) : Prop := GoodLine l ∧ strStarts sEXTINF l = true

/-- A stored URI line. -/
def UrlLine (l : Str) : Prop := GoodLine l ∧ strStarts sHash l = false

/-- The shape of every segment the parser can produce (metadata ends with
the duration directive that opened the segment). -/
def SegShape (res : Str → Str → Option Str) (baseUrl : Str)
    (s : M3U8Segment) : Prop :=
  UrlLine s.url ∧ s.isAd = isAdSegment (resolveUrl res s.url baseUrl) ∧
  ∃ pre e, s.metadata = pre ++ [e] ∧ (∀ p ∈ pre, MetaPre p) ∧ ExtLine e

/-- The segment shape guaranteed on well-formed (`goodLines`) input: no
stray duration directives inside the metadata, and the closing directive
free of `DISCONTINUITY`. -/
def SegStrict (res : Str → Str → Option Str) (baseUrl : Str)
    (s : M3U8Segment) : Prop :=
  UrlLine s.url ∧ s.isAd = isAdSegment (resolveUrl res s.url baseUrl) ∧
  ∃ pre e, s.metadata = pre ++ [e] ∧ (∀ p ∈ pre, MetaPreStrict p) ∧
    ExtLine e ∧ hasDiscTag e = false

/-- The lines a retained segment contributes to the rebuilt playlist. -/
def blockOf (s : M3U8Segment) : List Str :=
  s.metadata.filter (fun l => !(hasDiscTag l)) ++ [s.url]

/-- The concatenated serialized blocks of a segment list. -/
def blocksOf : List M3U8Segment → List Str
  | [] => []
  | s :: rest => blockOf s ++ blocksOf rest

/-- A single well-formed one-segment manifest. -/
def simpleManifest : Str := "#EXTINF:4,\nu.ts".toList

/-- The segment the parser extracts from `simpleManifest`. -/
def simpleSegment : M3U8Segment :=
  { durationTxt := some ("4".toList), url := "u.ts".toList,
    metadata := ["#EXTINF:4,".toList], isAd := false }

/-- The §8 example manifest of the specification: five four-second segments,
the second and fourth of which are advertising (`/ads/`), and the fifth of
which carries its own discontinuity marker. -/
def exampleManifest : Str :=
  ("#EXTM3U\n#EXT-X-VERSION:3\n#EXTINF:4.0,\nhttp://e/seg1.ts\n" ++
   "#EXTINF:4.0,\nhttp://e/ads/seg2.ts\n#EXTINF:4.0,\nhttp://e/seg3.ts\n" ++
   "#EXTINF:4.0,\nhttp://e/ads/seg4.ts\n#EXT-X-DISCONTINUITY\n" ++
   "#EXTINF:4.0,\nhttp://e/seg5.ts").toList

def exampleBase : Str := "http://e/x.m3u8".toList

/-- What the source actually produces for `exampleManifest`: ads removed,
but no discontinuity directive anywhere. -/
def exampleFilteredOutput : Str :=
  ("#EXTM3U\n#EXT-X-VERSION:3\n#EXTINF:4.0,\nhttp://e/seg1.ts\n" ++
   "#EXTINF:4.0,\nhttp://e/seg3.ts\n#EXTINF:4.0,\nhttp://e/seg5.ts").toList

/-- A playlist on which filtering is not idempotent: the dangling duration
directive is fused into the next segment's metadata, and re-parsing the
rebuilt text consumes the second directive as the first one's URI
candidate, dropping the segment entirely. -/
def nonIdempotentManifest : Str :=
  "#EXTM3U\n#EXTINF:4,\n#x\n#EXTINF:5,\nhttp://e/seg1.ts".toList

/-- A manifest whose only duration directive has no following URI line. -/
def danglingManifest : Str := "#EXTINF:4,".toList

/-- A URL matched by a custom runtime pattern but by no built-in one. -/
def customPatternUrl : Str := "http://h/qqxadfilterqq.ts".toList

/-- A custom-pattern store after one runtime addition. -/
def customPatternStore : List Str :=
  addCustomAdPattern [] ("qqxadfilterqq".toList)

/-- The media fault of the buffer-append class. -/
def bufferAppendFault : ErrorData :=
  { etype := sMediaError, details := some sBufferAppend, fatal := false }

/-- A network-class fault (non-fatal flavour). -/
def networkFault : ErrorData :=
  { etype := sNetworkError, details := Option.none, fatal := false }

/-- Probe results for the specification's switch-recommendation examples. -/
def probeAt (ms : ℚ) : SourceSpeedResult :=
  { source := "s".toList, sourceName := "s".toList, speed := ms,
    available := true, error := Option.none }

/-- A one-entry speed-test cache created at timestamp 0. -/
def cacheAtZero : List (Str × SpeedCacheEntry) :=
  [("t".toList, { results := [], timestamp := 0 })]

/-! ## Basic lemmas about the text primitives -/

theorem splitLines_ne_nil (s : Str) : splitLines s ≠ [] := by
  cases s with
  | nil => simp [splitLines]
  | cons c rest =>
    simp only [splitLines]
    split <;> simp

theorem splitLines_cons (c : Char) (rest : Str) :
    splitLines (c :: rest) =
      if c = '\n' then [] :: splitLines rest
      else (c :: (splitLines rest).headD []) :: (splitLines rest).tail := rfl

theorem not_newline_mem_splitLines (s : Str) :
    ∀ l ∈ splitLines s, '\n' ∉ l := by
  induction s with
  | nil =>
    intro l hl
    simp only [splitLines, List.mem_singleton] at hl
    subst hl
    simp
  | cons c rest ih =>
    intro l hl
    rw [splitLines_cons] at hl
    obtain ⟨l₀, ls, hsplit⟩ :
        ∃ l₀ ls, splitLines rest = l₀ :: ls :=
      List.exists_cons_of_ne_nil (splitLines_ne_nil rest)
    by_cases hc : c = '\n'
    · rw [if_pos hc] at hl
      rcases List.mem_cons.mp hl with h | h
      · subst h; simp
      · exact ih l h
    · rw [if_neg hc, hsplit] at hl
      rcases List.mem_cons.mp hl with h | h
      · subst h
        intro hmem
        rcases List.mem_cons.mp hmem with h' | h'
        · exact hc h'.symm
        · exact ih l₀ (hsplit ▸ List.mem_cons_self l₀ ls) (by simpa using h')
      · exact ih l (hsplit ▸ List.mem_cons_of_mem l₀ h)

theorem splitLines_append_newline (l t : Str) (hl : '\n' ∉ l) :
    splitLines (l ++ '\n' :: t) = l :: splitLines t := by
  induction l with
  | nil => simp [splitLines_cons]
  | cons c l' ih =>
    have hc : c ≠ '\n' := fun h => hl (h ▸ List.mem_cons_self c l')
    have hl' : '\n' ∉ l' := fun h => hl (List.mem_cons_of_mem c h)
    rw [List.cons_append, splitLines_cons, if_neg hc, ih hl']
    simp

theorem splitLines_of_no_newline (l : Str) (hl : '\n' ∉ l) :
    splitLines l = [l] := by
  induction l with
  | nil => rfl
  | cons c l' ih =>
    have hc : c ≠ '\n' := fun h => hl (h ▸ List.mem_cons_self c l')
    have hl' : '\n' ∉ l' := fun h => hl (List.mem_cons_of_mem c h)
    rw [splitLines_cons, if_neg hc, ih hl']
    simp

theorem splitLines_joinLines (L : List Str) (hne : L ≠ [])
    (hnl : ∀ l ∈ L, '\n' ∉ l) : splitLines (joinLines L) = L := by
  induction L with
  | nil => exact absurd rfl hne
  | cons l L' ih =>
    cases L' with
    | nil => exact splitLines_of_no_newline l (hnl l (List.mem_cons_self l []))
    | cons l' L'' =>
      have h₁ : '\n' ∉ l := hnl l (List.mem_cons_self _ _)
      have h₂ : ∀ x ∈ l' :: L'', '\n' ∉ x := fun x hx =>
        hnl x (List.mem_cons_of_mem l hx)
      rw [joinLines, splitLines_append_newline l _ h₁, ih (by simp) h₂]

theorem trim_sublist (s : Str) : List.Sublist (trim s) s := by
  have h₁ : List.Sublist ((s.dropWhile isWsChar).reverse.dropWhile isWsChar)
      (s.dropWhile isWsChar).reverse := (List.dropWhile_suffix _).sublist
  have h₂ : List.Sublist (((s.dropWhile isWsChar).reverse.dropWhile isWsChar).reverse)
      (s.dropWhile isWsChar) := by
    simpa using h₁.reverse
  exact h₂.trans (List.dropWhile_suffix _).sublist

theorem mem_of_mem_trim {c : Char} {s : Str} (h : c ∈ trim s) : c ∈ s :=
  (trim_sublist s).mem h

theorem head?_dropWhile_not {p : Char → Bool} {l : Str} {a : Char}
    (h : (l.dropWhile p).head? = some a) : p a = false := by
  induction l with
  | nil => simp [List.dropWhile] at h
  | cons c t ih =>
    simp only [List.dropWhile] at h
    cases hc : p c with
    | true => rw [hc] at h; exact ih h
    | false =>
      rw [hc] at h
      simp only [List.head?, Option.some.injEq] at h
      exact h ▸ hc

theorem dropWhile_eq_self_of_head {p : Char → Bool} {l : Str}
    (h : ∀ a, l.head? = some a → p a = false) : l.dropWhile p = l := by
  cases l with
  | nil => rfl
  | cons c t =>
    have hc := h c rfl
    simp [List.dropWhile, hc]

theorem trim_idem (s : Str) : trim (trim s) = trim s := by
  have hdropW2 : ((s.dropWhile isWsChar).reverse.dropWhile isWsChar).dropWhile
      isWsChar = (s.dropWhile isWsChar).reverse.dropWhile isWsChar := by
    apply dropWhile_eq_self_of_head
    intro a ha
    exact head?_dropWhile_not ha
  have hdropW : (trim s).dropWhile isWsChar = trim s := by
    apply dropWhile_eq_self_of_head
    intro a ha
    obtain ⟨u, hu⟩ := List.dropWhile_suffix
      (l := (s.dropWhile isWsChar).reverse) isWsChar
    have hpre : (trim s) ++ u.reverse = s.dropWhile isWsChar := by
      have := congrArg List.reverse hu
      simpa [trim] using this
    have hXhead : (s.dropWhile isWsChar).head? = some a := by
      rw [← hpre]
      cases htr : trim s with
      | nil => rw [htr] at ha; simp at ha
      | cons b t =>
        rw [htr] at ha
        simp only [List.head?, Option.some.injEq] at ha
        subst ha
        rfl
    exact head?_dropWhile_not hXhead
  have hstep : trim (trim s) =
      (((trim s).dropWhile isWsChar).reverse.dropWhile isWsChar).reverse := rfl
  rw [hstep, hdropW]
  have hstep2 : (trim s).reverse =
      ((s.dropWhile isWsChar).reverse.dropWhile isWsChar) := by
    simp [trim]
  rw [hstep2, hdropW2, trim]

theorem strStarts_iff (p l : Str) : strStarts p l = true ↔ ∃ t, p ++ t = l := by
  induction p generalizing l with
  | nil => simp [strStarts]
  | cons c p' ih =>
    cases l with
    | nil =>
      simp only [strStarts, List.cons_append]
      constructor
      · intro h; cases h
      · rintro ⟨t, ht⟩; cases ht
    | cons d l' =>
      simp only [strStarts, Bool.and_eq_true, decide_eq_true_eq, ih,
        List.cons_append, List.cons.injEq]
      constructor
      · rintro ⟨rfl, t, rfl⟩; exact ⟨t, rfl, rfl⟩
      · rintro ⟨t, rfl, rfl⟩; exact ⟨rfl, t, rfl⟩

theorem strStarts_append {a b l : Str} (h : strStarts (a ++ b) l = true) :
    strStarts a l = true := by
  rw [strStarts_iff] at h ⊢
  obtain ⟨t, ht⟩ := h
  exact ⟨b ++ t, by rw [← ht, List.append_assoc]⟩

theorem strStarts_take {p l : Str} (h : strStarts p l = true) :
    l.take p.length = p := by
  rw [strStarts_iff] at h
  obtain ⟨t, rfl⟩ := h
  exact List.take_left p t

/-- Two distinct patterns of equal length cannot both be prefixes. -/
theorem strStarts_exclusive {p q l : Str} (hlen : p.length = q.length)
    (hne : p ≠ q) (hp : strStarts p l = true) : strStarts q l = false := by
  cases hql : strStarts q l with
  | false => rfl
  | true =>
    have h₁ := strStarts_take hp
    have h₂ := strStarts_take hql
    rw [← hlen] at h₂
    exact absurd (h₁.symm.trans h₂) hne
/-! ## Classifier lemmas -/

theorem isAdSegment_eq_any (url : Str) :
    isAdSegment url =
      ((AD_PATTERNS.any fun pattern => strHas pattern (toLowerS url)) ||
       (AD_KEYWORDS.any fun keyword => strHas keyword (toLowerS url))) := by
  simp only [isAdSegment]
  cases h₁ : AD_PATTERNS.any fun pattern => strHas pattern (toLowerS url) <;>
    cases h₂ : AD_KEYWORDS.any fun keyword => strHas keyword (toLowerS url) <;>
      simp [h₁, h₂]

/-! ## Line classification lemmas -/

theorem starts_hash_of_EXTM3U {l : Str} (h : strStarts sEXTM3U l = true) :
    strStarts sHash l = true :=
  strStarts_append (a := sHash) (b := "EXTM3U".toList) h

theorem starts_hash_of_EXTX {l : Str} (h : strStarts sEXTXdash l = true) :
    strStarts sHash l = true :=
  strStarts_append (a := sHash) (b := "EXT-X-".toList) h

theorem starts_hash_of_EXTINF {l : Str} (h : strStarts sEXTINF l = true) :
    strStarts sHash l = true :=
  strStarts_append (a := sHash) (b := "EXTINF".toList) h

theorem not_EXTINF_of_EXTM3U {l : Str} (h : strStarts sEXTM3U l = true) :
    strStarts sEXTINF l = false :=
  strStarts_exclusive (by decide) (by decide) h

theorem not_EXTM3U_of_EXTINF {l : Str} (h : strStarts sEXTINF l = true) :
    strStarts sEXTM3U l = false :=
  strStarts_exclusive (by decide) (by decide) h

theorem not_EXTINF_of_EXTX {l : Str} (h : strStarts sEXTXdash l = true) :
    strStarts sEXTINF l = false :=
  strStarts_exclusive (by decide) (by decide) h

theorem not_EXTX_of_EXTINF {l : Str} (h : strStarts sEXTINF l = true) :
    strStarts sEXTXdash l = false :=
  strStarts_exclusive (by decide) (by decide) h

/-- The line actually stored by the parser (`trim l`) is a good line
whenever the raw line is newline-free and the trimmed line non-blank. -/
theorem goodLine_trim {l : Str} (hnl : '\n' ∉ l)
    (hne : ¬ (trim l).isEmpty = true) : GoodLine (trim l) :=
  ⟨trim_idem l,
   fun he => hne (by simp [he]),
   fun hc => hnl (mem_of_mem_trim hc)⟩

theorem goodLines_tail {l : Str} {rest : List Str}
    (h : goodLines (l :: rest) = true) : goodLines rest = true := by
  simp only [goodLines, Bool.and_eq_true] at h
  exact h.2

theorem goodLines_extinf_next {l u : Str} {rest2 : List Str}
    (h : goodLines (l :: u :: rest2) = true)
    (he : strStarts sEXTINF (trim l) = true) :
    (!(trim u).isEmpty && !strStarts sHash (trim u)) = true ∧
    hasDiscTag (trim l) = false := by
  simp only [goodLines, he, if_true, Bool.and_eq_true] at h
  obtain ⟨⟨⟨h₁, h₂⟩, h₃⟩, _⟩ := h
  exact ⟨by simp [h₁, h₂], by simpa using h₃⟩

theorem goodLines_extinf_last {l : Str}
    (h : goodLines [l] = true) (he : strStarts sEXTINF (trim l) = true) :
    False := by
  simp only [goodLines, he, if_true, Bool.and_eq_true] at h
  exact absurd h.1.1 (by simp)

/-! ## Parser stepping lemmas

The equation compiler splits `parseLoop` into the cases `[]`, `[l]` and
`l :: u :: rest`; the following lemmas restate one scanning step per kind of
line, with the branch conditions as hypotheses. -/

theorem parseLoop_step_blank (res : Str → Str → Option Str) (baseUrl : Str)
    {l : Str} (rest : List Str) (inH : Bool) (m : List Str)
    (h : (trim l).isEmpty = true) :
    parseLoop res baseUrl (l :: rest) inH m =
      parseLoop res baseUrl rest inH m := by
  cases rest with
  | nil => rw [parseLoop.eq_2, if_pos h]
  | cons u rest2 => rw [parseLoop.eq_3, if_pos h]

/-- Any comment line filed under the header (format marker anywhere;
`#EXT-X-` or other comments while in header mode). -/
theorem parseLoop_step_header (res : Str → Str → Option Str) (baseUrl : Str)
    {l : Str} (rest : List Str) (inH : Bool) (m : List Str)
    (h1 : ¬ (trim l).isEmpty = true)
    (hcase : strStarts sEXTM3U (trim l) = true ∨
      ((inH && strStarts sEXTXdash (trim l)) = true ∧
        strStarts sEXTM3U (trim l) = false) ∨
      (strStarts sHash (trim l) = true ∧ strStarts sEXTM3U (trim l) = false ∧
        (inH && strStarts sEXTXdash (trim l)) = false ∧
        strStarts sEXTINF (trim l) = false ∧ inH = true)) :
    parseLoop res baseUrl (l :: rest) inH m =
      (trim l :: (parseLoop res baseUrl rest inH m).1,
       (parseLoop res baseUrl rest inH m).2) := by
  rcases hcase with h2 | ⟨h3, h2⟩ | ⟨h6, h2, h3, h4, h7⟩
  · cases rest with
    | nil => rw [parseLoop.eq_2, if_neg h1, if_pos h2]
    | cons u rest2 => rw [parseLoop.eq_3, if_neg h1, if_pos h2]
  · cases rest with
    | nil => rw [parseLoop.eq_2, if_neg h1, if_neg (by simp [h2]), if_pos h3]
    | cons u rest2 =>
      rw [parseLoop.eq_3, if_neg h1, if_neg (by simp [h2]), if_pos h3]
  · cases rest with
    | nil =>
      rw [parseLoop.eq_2, if_neg h1, if_neg (by simp [h2]),
        if_neg (by simp [h3]), if_neg (by simp [h4]), if_pos h6, if_pos h7]
    | cons u rest2 =>
      rw [parseLoop.eq_3, if_neg h1, if_neg (by simp [h2]),
        if_neg (by simp [h3]), if_neg (by simp [h4]), if_pos h6, if_pos h7]

/-- A comment line accumulated into the current segment metadata (not in
header mode). -/
theorem parseLoop_step_meta (res : Str → Str → Option Str) (baseUrl : Str)
    {l : Str} (rest : List Str) (m : List Str)
    (h1 : ¬ (trim l).isEmpty = true)
    (h2 : strStarts sEXTM3U (trim l) = false)
    (h4 : strStarts sEXTINF (trim l) = false)
    (h6 : strStarts sHash (trim l) = true) :
    parseLoop res baseUrl (l :: rest) false m =
      parseLoop res baseUrl rest false (m ++ [trim l]) := by
  cases rest with
  | nil =>
    rw [parseLoop.eq_2, if_neg h1, if_neg (by simp [h2]),
      if_neg (by simp), if_neg (by simp [h4]), if_pos h6, if_neg (by simp)]
  | cons u rest2 =>
    rw [parseLoop.eq_3, if_neg h1, if_neg (by simp [h2]),
      if_neg (by simp), if_neg (by simp [h4]), if_pos h6, if_neg (by simp)]

/-- A non-blank line that is neither a comment nor consumed as a URI is
dropped. -/
theorem parseLoop_step_junk (res : Str → Str → Option Str) (baseUrl : Str)
    {l : Str} (rest : List Str) (inH : Bool) (m : List Str)
    (h1 : ¬ (trim l).isEmpty = true)
    (h6 : strStarts sHash (trim l) = false) :
    parseLoop res baseUrl (l :: rest) inH m =
      parseLoop res baseUrl rest inH m := by
  have h2 : strStarts sEXTM3U (trim l) = false := by
    cases h : strStarts sEXTM3U (trim l) with
    | false => rfl
    | true => exact absurd (starts_hash_of_EXTM3U h) (by simp [h6])
  have hx : strStarts sEXTXdash (trim l) = false := by
    cases h : strStarts sEXTXdash (trim l) with
    | false => rfl
    | true => exact absurd (starts_hash_of_EXTX h) (by simp [h6])
  have h4 : strStarts sEXTINF (trim l) = false := by
    cases h : strStarts sEXTINF (trim l) with
    | false => rfl
    | true => exact absurd (starts_hash_of_EXTINF h) (by simp [h6])
  cases rest with
  | nil =>
    rw [parseLoop.eq_2, if_neg h1, if_neg (by simp [h2]),
      if_neg (by simp [hx]), if_neg (by simp [h4]), if_neg (by simp [h6])]
  | cons u rest2 =>
    rw [parseLoop.eq_3, if_neg h1, if_neg (by simp [h2]),
      if_neg (by simp [hx]), if_neg (by simp [h4]), if_neg (by simp [h6])]

/-- A duration directive whose following line is a usable URI: one segment
is emitted and the metadata reset. -/
theorem parseLoop_step_extinf_ok (res : Str → Str → Option Str)
    (baseUrl : Str) {l u : Str} (rest2 : List Str) (inH : Bool)
    (m : List Str)
    (h1 : ¬ (trim l).isEmpty = true)
    (h2 : strStarts sEXTM3U (trim l) = false)
    (h3 : (inH && strStarts sEXTXdash (trim l)) = false)
    (h4 : strStarts sEXTINF (trim l) = true)
    (h5 : (!(trim u).isEmpty && !strStarts sHash (trim u)) = true) :
    parseLoop res baseUrl (l :: u :: rest2) inH m =
      ((parseLoop res baseUrl rest2 false []).1,
       { durationTxt := extinfDur (trim l), url := trim u,
         metadata := m ++ [trim l],
         isAd := isAdSegment (resolveUrl res (trim u) baseUrl) } ::
         (parseLoop res baseUrl rest2 false []).2) := by
  rw [parseLoop.eq_3, if_neg h1, if_neg (by simp [h2]),
    if_neg (by simp [h3]), if_pos h4, if_pos h5]

/-- A duration directive whose following line is blank or a comment: that
line is consumed and dropped, and the directive stays in the metadata. -/
theorem parseLoop_step_extinf_bad (res : Str → Str → Option Str)
    (baseUrl : Str) {l u : Str} (rest2 : List Str) (inH : Bool)
    (m : List Str)
    (h1 : ¬ (trim l).isEmpty = true)
    (h2 : strStarts sEXTM3U (trim l) = false)
    (h3 : (inH && strStarts sEXTXdash (trim l)) = false)
    (h4 : strStarts sEXTINF (trim l) = true)
    (h5 : ¬ (!(trim u).isEmpty && !strStarts sHash (trim u)) = true) :
    parseLoop res baseUrl (l :: u :: rest2) inH m =
      parseLoop res baseUrl rest2 false (m ++ [trim l]) := by
  rw [parseLoop.eq_3, if_neg h1, if_neg (by simp [h2]),
    if_neg (by simp [h3]), if_pos h4, if_neg h5]

/-- A duration directive as the very last line: the scan just ends. -/
theorem parseLoop_step_extinf_end (res : Str → Str → Option Str)
    (baseUrl : Str) {l : Str} (inH : Bool) (m : List Str)
    (h1 : ¬ (trim l).isEmpty = true)
    (h2 : strStarts sEXTM3U (trim l) = false)
    (h3 : (inH && strStarts sEXTXdash (trim l)) = false)
    (h4 : strStarts sEXTINF (trim l) = true) :
    parseLoop res baseUrl [l] inH m = ([], []) := by
  rw [parseLoop.eq_2, if_neg h1, if_neg (by simp [h2]),
    if_neg (by simp [h3]), if_pos h4]

/-! ## Parser shape lemma

One induction (on a length bound, since the duration-directive step consumes
two lines) establishes every structural fact needed later: header lines are
non-directive comments, every segment's metadata ends with the duration
directive that opened it, the stored `isAd` bit is the classifier applied to
the resolved stored URI, and on `goodLines` input the metadata contains no
stray duration directives and the closing directive is `DISCONTINUITY`-free.
-/

theorem parseLoop_shape (res : Str → Str → Option Str) (baseUrl : Str) :
    ∀ (n : Nat) (ls : List Str), ls.length ≤ n → ∀ (inHeader : Bool)
      (meta : List Str),
      (∀ l ∈ ls, '\n' ∉ l) → (∀ m ∈ meta, MetaPre m) →
      (∀ x ∈ (parseLoop res baseUrl ls inHeader meta).1, HeadLine x) ∧
      (∀ s ∈ (parseLoop res baseUrl ls inHeader meta).2,
        SegShape res baseUrl s) ∧
      (goodLines ls = true → (∀ m ∈ meta, MetaPreStrict m) →
        ∀ s ∈ (parseLoop res baseUrl ls inHeader meta).2,
          SegStrict res baseUrl s) := by
  intro n
  induction n with
  | zero =>
    intro ls hlen inHeader meta _ _
    have hnil : ls = [] := List.length_eq_zero.mp (Nat.le_zero.mp hlen)
    subst hnil
    refine ⟨?_, ?_, ?_⟩ <;> simp [parseLoop.eq_1]
  | succ n ih =>
    intro ls hlen inHeader meta hnl hmeta
    cases ls with
    | nil => refine ⟨?_, ?_, ?_⟩ <;> simp [parseLoop.eq_1]
    | cons l rest =>
      have hlr : rest.length ≤ n := by
        simp only [List.length_cons] at hlen; omega
      have hnl' : ∀ x ∈ rest, '\n' ∉ x := fun x hx =>
        hnl x (List.mem_cons_of_mem l hx)
      have hnll : '\n' ∉ l := hnl l (List.mem_cons_self l rest)
      by_cases h1 : (trim l).isEmpty = true
      · rw [parseLoop_step_blank res baseUrl rest inHeader meta h1]
        obtain ⟨ihH, ihS, ihT⟩ := ih rest hlr inHeader meta hnl' hmeta
        exact ⟨ihH, ihS, fun hg hm => ihT (goodLines_tail hg) hm⟩
      · have hgoodl : GoodLine (trim l) := goodLine_trim hnll h1
        by_cases h2 : strStarts sEXTM3U (trim l) = true
        · rw [parseLoop_step_header res baseUrl rest inHeader meta h1
            (Or.inl h2)]
          obtain ⟨ihH, ihS, ihT⟩ := ih rest hlr inHeader meta hnl' hmeta
          refine ⟨?_, ihS, fun hg hm => ihT (goodLines_tail hg) hm⟩
          intro x hx
          rcases List.mem_cons.mp hx with hx | hx
          · exact hx ▸ ⟨hgoodl, starts_hash_of_EXTM3U h2, not_EXTINF_of_EXTM3U h2⟩
          · exact ihH x hx
        · have h2f : strStarts sEXTM3U (trim l) = false := by
            simpa using h2
          by_cases h3 : (inHeader && strStarts sEXTXdash (trim l)) = true
          · rw [parseLoop_step_header res baseUrl rest inHeader meta h1
              (Or.inr (Or.inl ⟨h3, h2f⟩))]
            obtain ⟨ihH, ihS, ihT⟩ := ih rest hlr inHeader meta hnl' hmeta
            refine ⟨?_, ihS, fun hg hm => ihT (goodLines_tail hg) hm⟩
            intro x hx
            rcases List.mem_cons.mp hx with hx | hx
            · have h3' := h3
              simp only [Bool.and_eq_true] at h3'
              have hX := h3'.2
              exact hx ▸ ⟨hgoodl, starts_hash_of_EXTX hX, not_EXTINF_of_EXTX hX⟩
            · exact ihH x hx
          · have h3f : (inHeader && strStarts sEXTXdash (trim l)) = false := by
              simpa using h3
            by_cases h4 : strStarts sEXTINF (trim l) = true
            · cases rest with
              | nil =>
                rw [parseLoop_step_extinf_end res baseUrl inHeader meta
                  h1 h2f h3f h4]
                refine ⟨by simp, by simp, fun hg _ => ?_⟩
                exact absurd (goodLines_extinf_last hg h4) (by simp)
              | cons u rest2 =>
                have hlr2 : rest2.length ≤ n := by
                  simp only [List.length_cons] at hlen; omega
                have hnl2 : ∀ x ∈ rest2, '\n' ∉ x := fun x hx =>
                  hnl' x (List.mem_cons_of_mem u hx)
                have hnlu : '\n' ∉ u := hnl' u (List.mem_cons_self u rest2)
                by_cases h5 : (!(trim u).isEmpty && !strStarts sHash (trim u))
                    = true
                · rw [parseLoop_step_extinf_ok res baseUrl rest2 inHeader
                    meta h1 h2f h3f h4 h5]
                  have h5' := h5
                  simp only [Bool.and_eq_true] at h5'
                  obtain ⟨hu1, hu2⟩ := h5'
                  have hgu : GoodLine (trim u) :=
                    goodLine_trim hnlu (by simpa using hu1)
                  obtain ⟨ihH, ihS, ihT⟩ :=
                    ih rest2 hlr2 false [] hnl2 (by simp)
                  refine ⟨ihH, ?_, ?_⟩
                  · intro s hs
                    rcases List.mem_cons.mp hs with hs | hs
                    · subst hs
                      exact ⟨⟨hgu, by simpa using hu2⟩, rfl,
                        meta, trim l, rfl, hmeta, hgoodl, h4⟩
                    · exact ihS s hs
                  · intro hg hm s hs
                    obtain ⟨hnext, hdisc⟩ := goodLines_extinf_next hg h4
                    rcases List.mem_cons.mp hs with hs | hs
                    · subst hs
                      exact ⟨⟨hgu, by simpa using hu2⟩, rfl,
                        meta, trim l, rfl, hm, ⟨hgoodl, h4⟩, hdisc⟩
                    · exact ihT (goodLines_tail (goodLines_tail hg))
                        (by simp) s hs
                · rw [parseLoop_step_extinf_bad res baseUrl rest2 inHeader
                    meta h1 h2f h3f h4 h5]
                  have hmeta' : ∀ m ∈ meta ++ [trim l], MetaPre m := by
                    intro m hm
                    rcases List.mem_append.mp hm with hm | hm
                    · exact hmeta m hm
                    · rw [List.mem_singleton.mp hm]
                      exact ⟨hgoodl, starts_hash_of_EXTINF h4,
                        not_EXTM3U_of_EXTINF h4⟩
                  obtain ⟨ihH, ihS, ihT⟩ :=
                    ih rest2 hlr2 false (meta ++ [trim l]) hnl2 hmeta'
                  refine ⟨ihH, ihS, fun hg _ => ?_⟩
                  exact absurd (goodLines_extinf_next hg h4).1
                    (by simpa using h5)
            · have h4f : strStarts sEXTINF (trim l) = false := by
                simpa using h4
              by_cases h6 : strStarts sHash (trim l) = true
              · cases inHeader with
                | true =>
                  rw [parseLoop_step_header res baseUrl rest true meta h1
                    (Or.inr (Or.inr ⟨h6, h2f, h3f, h4f, rfl⟩))]
                  obtain ⟨ihH, ihS, ihT⟩ := ih rest hlr true meta hnl' hmeta
                  refine ⟨?_, ihS, fun hg hm => ihT (goodLines_tail hg) hm⟩
                  intro x hx
                  rcases List.mem_cons.mp hx with hx | hx
                  · exact hx ▸ ⟨hgoodl, h6, h4f⟩
                  · exact ihH x hx
                | false =>
                  rw [parseLoop_step_meta res baseUrl rest meta h1 h2f h4f h6]
                  have hMP : MetaPre (trim l) := ⟨hgoodl, h6, h2f⟩
                  have hmeta' : ∀ m ∈ meta ++ [trim l], MetaPre m := by
                    intro m hm
                    rcases List.mem_append.mp hm with hm | hm
                    · exact hmeta m hm
                    · exact (List.mem_singleton.mp hm) ▸ hMP
                  obtain ⟨ihH, ihS, ihT⟩ :=
                    ih rest hlr false (meta ++ [trim l]) hnl' hmeta'
                  refine ⟨ihH, ihS, fun hg hm => ?_⟩
                  refine ihT (goodLines_tail hg) ?_
                  intro m hmm
                  rcases List.mem_append.mp hmm with hmm | hmm
                  · exact hm m hmm
                  · exact (List.mem_singleton.mp hmm) ▸ ⟨hMP, h4f⟩
              · have h6f : strStarts sHash (trim l) = false := by
                  simpa using h6
                rw [parseLoop_step_junk res baseUrl rest inHeader meta h1 h6f]
                obtain ⟨ihH, ihS, ihT⟩ := ih rest hlr inHeader meta hnl' hmeta
                exact ⟨ihH, ihS, fun hg hm => ihT (goodLines_tail hg) hm⟩

/-! ## Re-parsing the rebuilt playlist -/

theorem isEmpty_false_of_ne {l : Str} (h : l ≠ []) : ¬ l.isEmpty = true := by
  cases l with
  | nil => exact absurd rfl h
  | cons c t => simp [List.isEmpty]

theorem SegStrict.shape {res : Str → Str → Option Str} {baseUrl : Str}
    {s : M3U8Segment} (h : SegStrict res baseUrl s) : SegShape res baseUrl s := by
  obtain ⟨hu, hAd, pre, e, hm, hpre, he, _⟩ := h
  exact ⟨hu, hAd, pre, e, hm, fun p hp => (hpre p hp).1, he⟩

/-- With the discontinuity flag down (as the source keeps it), the rebuild
loop is exactly block concatenation. -/
theorem rebuildLoop_no_flag (segs : List M3U8Segment) :
    ∀ p : Bool, rebuildLoop segs p false = blocksOf segs := by
  induction segs with
  | nil => intro p; rfl
  | cons s rest ih =>
    intro p
    simp only [rebuildLoop, Bool.and_false, blocksOf, blockOf]
    rw [if_neg (by simp), if_neg (by simp), ih true]
    simp

/-- Every line of a segment's serialized block is a stored (good) line. -/
theorem blockOf_good {res : Str → Str → Option Str} {baseUrl : Str}
    {s : M3U8Segment} (hs : SegShape res baseUrl s) :
    ∀ x ∈ blockOf s, GoodLine x := by
  obtain ⟨⟨hug, _⟩, _, pre, e, hm, hpre, he⟩ := hs
  intro x hx
  rcases List.mem_append.mp hx with hx | hx
  · have hx' : x ∈ s.metadata := List.mem_of_mem_filter hx
    rw [hm] at hx'
    rcases List.mem_append.mp hx' with hx' | hx'
    · exact (hpre x hx').1
    · exact (List.mem_singleton.mp hx') ▸ he.1
  · exact (List.mem_singleton.mp hx) ▸ hug

theorem blocksOf_good {res : Str → Str → Option Str} {baseUrl : Str}
    {F : List M3U8Segment} (hF : ∀ s ∈ F, SegShape res baseUrl s) :
    ∀ x ∈ blocksOf F, GoodLine x := by
  induction F with
  | nil => simp [blocksOf]
  | cons s rest ih =>
    intro x hx
    rcases List.mem_append.mp hx with hx | hx
    · exact blockOf_good (hF s (List.mem_cons_self s rest)) x hx
    · exact ih (fun t ht => hF t (List.mem_cons_of_mem s ht)) x hx

/-- Header-classified lines pass straight into the header of the result. -/
theorem parseLoop_header_prefix (res : Str → Str → Option Str)
    (baseUrl : Str) (H : List Str) :
    ∀ (T : List Str) (m : List Str), (∀ x ∈ H, HeadLine x) →
      parseLoop res baseUrl (H ++ T) true m =
        (H ++ (parseLoop res baseUrl T true m).1,
         (parseLoop res baseUrl T true m).2) := by
  induction H with
  | nil => intro T m _; simp
  | cons h H' ih =>
    intro T m hH
    obtain ⟨⟨htrim, hne, _⟩, hhash, hext⟩ := hH h (List.mem_cons_self h H')
    have h1 : ¬ (trim h).isEmpty = true := by
      rw [htrim]; exact isEmpty_false_of_ne hne
    have step : parseLoop res baseUrl (h :: (H' ++ T)) true m =
        (trim h :: (parseLoop res baseUrl (H' ++ T) true m).1,
         (parseLoop res baseUrl (H' ++ T) true m).2) := by
      by_cases hm3u : strStarts sEXTM3U (trim h) = true
      · exact parseLoop_step_header res baseUrl (H' ++ T) true m h1
          (Or.inl hm3u)
      · by_cases hx : strStarts sEXTXdash (trim h) = true
        · exact parseLoop_step_header res baseUrl (H' ++ T) true m h1
            (Or.inr (Or.inl ⟨by simp [hx], by simpa using hm3u⟩))
        · exact parseLoop_step_header res baseUrl (H' ++ T) true m h1
            (Or.inr (Or.inr ⟨htrim.symm ▸ hhash, by simpa using hm3u,
              by simpa using hx, htrim.symm ▸ hext, rfl⟩))
    rw [List.cons_append, step, htrim,
      ih T m (fun x hx => hH x (List.mem_cons_of_mem h hx))]
    simp

/-- Strict metadata lines re-accumulate into the metadata buffer. -/
theorem parseLoop_meta_accum (res : Str → Str → Option Str)
    (baseUrl : Str) (D : List Str) :
    ∀ (T : List Str) (m : List Str), (∀ d ∈ D, MetaPreStrict d) →
      parseLoop res baseUrl (D ++ T) false m =
        parseLoop res baseUrl T false (m ++ D) := by
  induction D with
  | nil => intro T m _; simp
  | cons d D' ih =>
    intro T m hD
    obtain ⟨⟨⟨htrim, hne, _⟩, hhash, hm3u⟩, hext⟩ :=
      hD d (List.mem_cons_self d D')
    rw [List.cons_append,
      parseLoop_step_meta res baseUrl (D' ++ T) m
        (by rw [htrim]; exact isEmpty_false_of_ne hne)
        (htrim.symm ▸ hm3u) (htrim.symm ▸ hext) (htrim.symm ▸ hhash),
      htrim, ih T (m ++ [d]) (fun x hx => hD x (List.mem_cons_of_mem d hx))]
    simp

theorem filter_disc_block {pre : List Str} {e : Str}
    (he : hasDiscTag e = false) :
    (pre ++ [e]).filter (fun l => !(hasDiscTag l)) =
      pre.filter (fun l => !(hasDiscTag l)) ++ [e] := by
  rw [List.filter_append]
  simp [List.filter, he]

theorem filter_disc_idem (l : List Str) :
    (l.filter (fun x => !(hasDiscTag x))).filter (fun x => !(hasDiscTag x)) =
      l.filter (fun x => !(hasDiscTag x)) :=
  List.filter_eq_self.mpr (fun _ ha => (List.mem_filter.mp ha).2)

/-- Re-parsing the serialized blocks of strictly-shaped, retained segments
(in segment mode) yields no header lines and block-equivalent segments, all
retained again. -/
theorem parseLoop_blocks (res : Str → Str → Option Str) (baseUrl : Str) :
    ∀ (F : List M3U8Segment),
      (∀ s ∈ F, SegStrict res baseUrl s ∧
        isAdSegment (resolveUrl res s.url baseUrl) = false) →
      ∃ G : List M3U8Segment,
        parseLoop res baseUrl (blocksOf F) false [] = ([], G) ∧
        blocksOf G = blocksOf F ∧ (∀ g ∈ G, g.isAd = false) := by
  intro F
  induction F with
  | nil => intro _; exact ⟨[], by simp [blocksOf, parseLoop.eq_1], rfl, by simp⟩
  | cons s F' ih =>
    intro hF
    obtain ⟨⟨⟨hutrim, hune, _⟩, huhash⟩, hAd, pre, e, hm, hpre, he, hdisc⟩ :=
      (hF s (List.mem_cons_self s F')).1
    have hnotad := (hF s (List.mem_cons_self s F')).2
    obtain ⟨⟨hetrim, hene, _⟩, hext⟩ := he
    obtain ⟨G', hG'eq, hG'blocks, hG'ad⟩ :=
      ih (fun t ht => hF t (List.mem_cons_of_mem s ht))
    have hblock : blocksOf (s :: F') =
        pre.filter (fun l => !(hasDiscTag l)) ++
          (e :: s.url :: blocksOf F') := by
      simp only [blocksOf, blockOf, hm, filter_disc_block hdisc]
      simp
    refine ⟨M3U8Segment.mk (extinfDur e) s.url
        (pre.filter (fun l => !(hasDiscTag l)) ++ [e])
        (isAdSegment (resolveUrl res s.url baseUrl)) :: G', ?_, ?_, ?_⟩
    · rw [hblock,
        parseLoop_meta_accum res baseUrl _ _ _
          (fun d hd => hpre d (List.mem_of_mem_filter hd)),
        parseLoop_step_extinf_ok res baseUrl (blocksOf F') false _
          (by rw [hetrim]; exact isEmpty_false_of_ne hene)
          (by rw [hetrim]; exact not_EXTM3U_of_EXTINF hext)
          (by simp)
          (by rw [hetrim]; exact hext)
          (by rw [hutrim]
              simp [isEmpty_false_of_ne hune, huhash]),
        hG'eq]
      simp [hetrim, hutrim]
    · simp only [blocksOf, blockOf, hG'blocks, hm]
      rw [List.filter_append, filter_disc_idem,
        filter_disc_block hdisc]
      simp [List.filter, hdisc]
    · intro g hg
      rcases List.mem_cons.mp hg with hg | hg
      · rw [hg]; exact hnotad
      · exact hG'ad g hg

/-- Re-parsing the serialized blocks in header mode: the first retained
segment's leading metadata migrates into the header, everything else is as
in segment mode, and the serialized text is unchanged. -/
theorem parseLoop_blocks_header (res : Str → Str → Option Str)
    (baseUrl : Str) (F : List M3U8Segment)
    (hF : ∀ s ∈ F, SegStrict res baseUrl s ∧
      isAdSegment (resolveUrl res s.url baseUrl) = false) :
    ∃ (D : List Str) (G : List M3U8Segment),
      parseLoop res baseUrl (blocksOf F) true [] = (D, G) ∧
      (∀ d ∈ D, HeadLine d) ∧
      D ++ blocksOf G = blocksOf F ∧ (∀ g ∈ G, g.isAd = false) := by
  cases F with
  | nil => exact ⟨[], [], by simp [blocksOf, parseLoop.eq_1], by simp, rfl, by simp⟩
  | cons s F' =>
    obtain ⟨⟨⟨hutrim, hune, _⟩, huhash⟩, hAd, pre, e, hm, hpre, he, hdisc⟩ :=
      (hF s (List.mem_cons_self s F')).1
    have hnotad := (hF s (List.mem_cons_self s F')).2
    obtain ⟨⟨hetrim, hene, _⟩, hext⟩ := he
    obtain ⟨G', hG'eq, hG'blocks, hG'ad⟩ :=
      parseLoop_blocks res baseUrl F'
        (fun t ht => hF t (List.mem_cons_of_mem s ht))
    have hblock : blocksOf (s :: F') =
        pre.filter (fun l => !(hasDiscTag l)) ++
          (e :: s.url :: blocksOf F') := by
      simp only [blocksOf, blockOf, hm, filter_disc_block hdisc]
      simp
    have hDhead : ∀ d ∈ pre.filter (fun l => !(hasDiscTag l)), HeadLine d := by
      intro d hd
      obtain ⟨⟨hg, hh, _⟩, hni⟩ := hpre d (List.mem_of_mem_filter hd)
      exact ⟨hg, hh, hni⟩
    refine ⟨pre.filter (fun l => !(hasDiscTag l)),
      M3U8Segment.mk (extinfDur e) s.url [e]
        (isAdSegment (resolveUrl res s.url baseUrl)) :: G',
      ?_, hDhead, ?_, ?_⟩
    · rw [hblock,
        parseLoop_header_prefix res baseUrl _ _ _ hDhead,
        parseLoop_step_extinf_ok res baseUrl (blocksOf F') true []
          (by rw [hetrim]; exact isEmpty_false_of_ne hene)
          (by rw [hetrim]; exact not_EXTM3U_of_EXTINF hext)
          (by rw [hetrim]; simp [not_EXTX_of_EXTINF hext])
          (by rw [hetrim]; exact hext)
          (by rw [hutrim]
              simp [isEmpty_false_of_ne hune, huhash]),
        hG'eq]
      simp [hetrim, hutrim]
    · simp only [blocksOf, blockOf, hG'blocks, hm]
      rw [filter_disc_block hdisc]
      simp [List.filter, hdisc]
    · intro g hg
      rcases List.mem_cons.mp hg with hg | hg
      · rw [hg]; exact hnotad
      · exact hG'ad g hg

/-- The parser depends on the URL resolver only through the classifier's
verdict on resolved URIs. -/
theorem parseLoop_congr (res₁ res₂ : Str → Str → Option Str) (baseUrl : Str)
    (hres : ∀ u, isAdSegment (resolveUrl res₁ u baseUrl) =
      isAdSegment (resolveUrl res₂ u baseUrl)) :
    ∀ (n : Nat) (ls : List Str), ls.length ≤ n → ∀ (inH : Bool)
      (m : List Str),
      parseLoop res₁ baseUrl ls inH m = parseLoop res₂ baseUrl ls inH m := by
  intro n
  induction n with
  | zero =>
    intro ls hlen inH m
    have hnil : ls = [] := List.length_eq_zero.mp (Nat.le_zero.mp hlen)
    subst hnil
    rfl
  | succ n ih =>
    intro ls hlen inH m
    cases ls with
    | nil => rfl
    | cons l rest =>
      have hlr : rest.length ≤ n := by
        simp only [List.length_cons] at hlen; omega
      by_cases h1 : (trim l).isEmpty = true
      · rw [parseLoop_step_blank res₁ baseUrl rest inH m h1,
          parseLoop_step_blank res₂ baseUrl rest inH m h1,
          ih rest hlr inH m]
      · by_cases h2 : strStarts sEXTM3U (trim l) = true
        · rw [parseLoop_step_header res₁ baseUrl rest inH m h1 (Or.inl h2),
            parseLoop_step_header res₂ baseUrl rest inH m h1 (Or.inl h2),
            ih rest hlr inH m]
        · have h2f : strStarts sEXTM3U (trim l) = false := by simpa using h2
          by_cases h3 : (inH && strStarts sEXTXdash (trim l)) = true
          · rw [parseLoop_step_header res₁ baseUrl rest inH m h1
                (Or.inr (Or.inl ⟨h3, h2f⟩)),
              parseLoop_step_header res₂ baseUrl rest inH m h1
                (Or.inr (Or.inl ⟨h3, h2f⟩)),
              ih rest hlr inH m]
          · have h3f : (inH && strStarts sEXTXdash (trim l)) = false := by
              simpa using h3
            by_cases h4 : strStarts sEXTINF (trim l) = true
            · cases rest with
              | nil =>
                rw [parseLoop_step_extinf_end res₁ baseUrl inH m h1 h2f h3f h4,
                  parseLoop_step_extinf_end res₂ baseUrl inH m h1 h2f h3f h4]
              | cons u rest2 =>
                have hlr2 : rest2.length ≤ n := by
                  simp only [List.length_cons] at hlen; omega
                by_cases h5 : (!(trim u).isEmpty && !strStarts sHash (trim u))
                    = true
                · rw [parseLoop_step_extinf_ok res₁ baseUrl rest2 inH m
                      h1 h2f h3f h4 h5,
                    parseLoop_step_extinf_ok res₂ baseUrl rest2 inH m
                      h1 h2f h3f h4 h5,
                    ih rest2 hlr2 false [], hres (trim u)]
                · rw [parseLoop_step_extinf_bad res₁ baseUrl rest2 inH m
                      h1 h2f h3f h4 h5,
                    parseLoop_step_extinf_bad res₂ baseUrl rest2 inH m
                      h1 h2f h3f h4 h5,
                    ih rest2 hlr2 false (m ++ [trim l])]
            · have h4f : strStarts sEXTINF (trim l) = false := by
                simpa using h4
              by_cases h6 : strStarts sHash (trim l) = true
              · cases inH with
                | true =>
                  rw [parseLoop_step_header res₁ baseUrl rest true m h1
                      (Or.inr (Or.inr ⟨h6, h2f, h3f, h4f, rfl⟩)),
                    parseLoop_step_header res₂ baseUrl rest true m h1
                      (Or.inr (Or.inr ⟨h6, h2f, h3f, h4f, rfl⟩)),
                    ih rest hlr true m]
                | false =>
                  rw [parseLoop_step_meta res₁ baseUrl rest m h1 h2f h4f h6,
                    parseLoop_step_meta res₂ baseUrl rest m h1 h2f h4f h6,
                    ih rest hlr false (m ++ [trim l])]
              · have h6f : strStarts sHash (trim l) = false := by
                  simpa using h6
                rw [parseLoop_step_junk res₁ baseUrl rest inH m h1 h6f,
                  parseLoop_step_junk res₂ baseUrl rest inH m h1 h6f,
                  ih rest hlr inH m]

/-! ## Claim theorems -/

/-- Claim C3, counterexample: a pattern added at runtime via
`addCustomAdPattern` is a (case-insensitive) substring of the URL, yet the
classifier does not report the segment as an ad — the custom-pattern store
is never consulted by `isAdSegment`. -/
theorem isAdSegment_ignores_custom_patterns :
    ¬ (isAdSegment customPatternUrl = true ↔
        ∃ p ∈ AD_PATTERNS ++ AD_KEYWORDS ++ customPatternStore,
          strHas (toLowerS p) (toLowerS customPatternUrl) = true) := by
  decide

/-- Claim C3 (amended): the classifier returns `true` iff some **built-in**
pattern or keyword occurs in the lower-cased resolved URI; runtime-added
custom patterns are stored but never consulted. -/
theorem isAdSegment_spec (url : Str) :
    isAdSegment url = true ↔
      ∃ p ∈ AD_PATTERNS ++ AD_KEYWORDS, strHas p (toLowerS url) = true := by
  rw [isAdSegment_eq_any, ← List.any_append, List.any_eq_true]

/-- Claim C5: on a buffer-append media fault with retry count below the
maximum, the source does **not** ignore the fault — it issues a
`recoverMedia` retry (contradicting the repository's own documentation,
which says such faults are ignored once playback has started). -/
theorem bufferAppend_not_ignored :
    (handleHLSError bufferAppendFault 0).action = HLSAction.recoverMedia ∧
    (handleHLSError bufferAppendFault 0).shouldRetry = true ∧
    HLSAction.recoverMedia ≠ HLSAction.none := by
  decide

/-- Claim C6: `shouldSwitchSource` agrees with the specification's
`recommendSwitch` on every pair of probe results, and decides the two
worked examples as the specification states (1500ms→500ms switches,
500ms→400ms does not). -/
theorem shouldSwitchSource_spec :
    (∀ current best, shouldSwitchSource current best =
      recommendSwitchSpec current best) ∧
    shouldSwitchSource (probeAt 1500) (probeAt 500) = true ∧
    shouldSwitchSource (probeAt 500) (probeAt 400) = false := by
  refine ⟨fun current best => ?_,
    by simp [shouldSwitchSource, probeAt]; norm_num,
    by simp [shouldSwitchSource, probeAt]; norm_num⟩
  cases hc : current.available <;> cases hb : best.available <;>
    simp [shouldSwitchSource, recommendSwitchSpec, hc, hb]

/-- Claim C7, counterexample: with `now - createdAt` exactly equal to the
TTL the cache read is a **hit** (the source misses only when the age is
strictly greater than the TTL), while the claim requires a miss whenever
the age is not strictly below the TTL. -/
theorem cacheRead_hit_at_exact_ttl :
    getCachedSpeedTest cacheAtZero CACHE_DURATION ("t".toList) = some [] ∧
    ¬ (CACHE_DURATION - (0 : ℤ) < CACHE_DURATION) := by
  refine ⟨by decide, by decide⟩

/-- Claim C7 (amended): a cache read returns the stored result set exactly
when an entry with that title exists and `now - createdAt ≤ TTL`; with no
entry, or past that age, the read is a miss. -/
theorem getCachedSpeedTest_spec (cache : List (Str × SpeedCacheEntry))
    (now : ℤ) (videoTitle : Str) :
    (cache.lookup videoTitle = Option.none →
      getCachedSpeedTest cache now videoTitle = Option.none) ∧
    (∀ e, cache.lookup videoTitle = some e →
      (getCachedSpeedTest cache now videoTitle = some e.results ↔
        now - e.timestamp ≤ CACHE_DURATION)) := by
  constructor
  · intro h
    simp [getCachedSpeedTest, h]
  · intro e he
    simp only [getCachedSpeedTest, he]
    by_cases h : now - e.timestamp > CACHE_DURATION
    · rw [if_pos h]
      constructor
      · intro hcontra; cases hcontra
      · intro hle; exact absurd h (by omega)
    · rw [if_neg h]
      exact ⟨fun _ => by omega, fun _ => rfl⟩

/-- Witness for `getCachedSpeedTest_spec` at a concrete cache state. -/
theorem getCachedSpeedTest_spec_witness :
    getCachedSpeedTest cacheAtZero 100 ("t".toList) = some [] :=
  ((getCachedSpeedTest_spec cacheAtZero 100 ("t".toList)).2
    { results := [], timestamp := 0 } (by decide)).mpr (by decide)

/-- `handleHLSError` grants a retry to every network fault seen with fewer
than three retries so far. -/
theorem handleHLSError_network_lt {errorData : ErrorData}
    (h : errorData.etype = sNetworkError) (n : Nat) (hn : n < 3) :
    (handleHLSError errorData n).shouldRetry = true := by
  simp only [handleHLSError]
  rw [if_pos ⟨h, hn⟩]

/-- `handleHLSError` refuses a retry to every network fault seen with three
or more retries; the result is `destroy` or `none`, never a retry action. -/
theorem handleHLSError_network_ge {errorData : ErrorData}
    (h : errorData.etype = sNetworkError) (n : Nat) (hn : ¬ n < 3) :
    (handleHLSError errorData n).shouldRetry = false ∧
    ((handleHLSError errorData n).action = HLSAction.destroy ∨
     (handleHLSError errorData n).action = HLSAction.none) := by
  have hne : errorData.etype ≠ sMediaError := by rw [h]; decide
  simp only [handleHLSError]
  rw [if_neg fun hc => hn hc.2, if_neg fun hc => hne hc.1,
      if_neg fun hc => hne hc.1, if_neg fun hc => hne hc.1]
  by_cases hf : errorData.fatal = true
  · rw [if_pos hf]; exact ⟨rfl, Or.inl rfl⟩
  · rw [if_neg hf]; exact ⟨rfl, Or.inr rfl⟩

/-- Claim C8: a network fault arriving with three or more granted retries is
never granted another (no retry action is ever issued past the bound), and a
session hit by four consecutive network faults grants exactly three retries
and then turns terminal. -/
theorem network_recovery_bounded (errorData : ErrorData)
    (h : errorData.etype = sNetworkError) :
    (∀ n, 3 ≤ n →
      (handleHLSError errorData n).shouldRetry = false ∧
      (handleHLSError errorData n).action ≠ HLSAction.startLoad ∧
      (handleHLSError errorData n).action ≠ HLSAction.recoverMedia) ∧
    stepFault errorData (stepFault errorData (stepFault errorData
      (stepFault errorData { retryCount := 0, fatal := false }))) =
      { retryCount := 3, fatal := true } := by
  constructor
  · intro n hn
    obtain ⟨h₁, h₂⟩ := handleHLSError_network_ge h n (by omega)
    refine ⟨h₁, ?_, ?_⟩ <;> rcases h₂ with h₂ | h₂ <;> simp [h₂]
  · have step : ∀ k, k < 3 →
        stepFault errorData { retryCount := k, fatal := false } =
          { retryCount := k + 1, fatal := false } := by
      intro k hk
      simp only [stepFault]
      rw [if_neg (by simp), if_pos (handleHLSError_network_lt h k hk)]
    rw [step 0 (by omega), step 1 (by omega), step 2 (by omega)]
    simp only [stepFault]
    rw [if_neg (by simp),
        if_neg (by simp [(handleHLSError_network_ge h 3 (by omega)).1])]

/-- Claim C1: on the specification's own §8 example — where retained
segments directly follow removed ad segments, and the fifth segment's
metadata carries its own discontinuity marker — the filtered output contains
no discontinuity directive at all.  The source's `needsDiscontinuity` flag
is initialised `false` and never set, so a synthetic marker is never
inserted, and metadata discontinuity markers are unconditionally stripped
(contradicting the source's own comments, which say a marker is added when
needed and existing ones accounted for). -/
theorem discontinuity_repair_never_happens :
    filterM3U8Playlist resNone exampleManifest exampleBase =
      exampleFilteredOutput ∧
    strHas sDISCONTINUITY
      (filterM3U8Playlist resNone exampleManifest exampleBase) = false ∧
    strHas sDISCONTINUITY exampleManifest = true := by
  decide

/-- Claim C2, counterexample: the parser has no failing path at all.  On a
manifest whose only duration directive has no following URI line it returns
normally (the empty playlist) rather than aborting — no `ParseError` exists
anywhere in the source. -/
theorem parser_succeeds_on_dangling_duration :
    danglingExtinf (splitLines danglingManifest) = true ∧
    parseM3U8 resNone danglingManifest exampleBase = ([], []) := by
  decide

/-- Claim C2 (amended): the parser is total — it succeeds on every input
(unknown directives, blank lines, dangling duration directives included)
and every segment it produces has a non-empty, non-comment URI line. -/
theorem parseM3U8_total_wellformed (res : Str → Str → Option Str)
    (content baseUrl : Str) :
    ∀ s ∈ (parseM3U8 res content baseUrl).2,
      s.url ≠ [] ∧ strStarts sHash s.url = false := by
  intro s hs
  obtain ⟨_, hS, _⟩ := parseLoop_shape res baseUrl
    (splitLines content).length (splitLines content) le_rfl true []
    (not_newline_mem_splitLines content) (by simp)
  obtain ⟨⟨⟨_, hne, _⟩, hhash⟩, _⟩ := hS s hs
  exact ⟨hne, hhash⟩

/-- Witness for `parseM3U8_total_wellformed` on a one-segment manifest. -/
theorem parseM3U8_total_wellformed_witness :
    simpleSegment ∈ (parseM3U8 resNone simpleManifest exampleBase).2 ∧
    simpleSegment.url ≠ [] ∧
    strStarts sHash simpleSegment.url = false :=
  ⟨by decide, parseM3U8_total_wellformed resNone simpleManifest exampleBase
    simpleSegment (by decide)⟩

/-- Claim C4, counterexample: filtering is not idempotent.  On a playlist
with a dangling duration directive the first pass fuses two `#EXTINF` lines
into one segment's metadata; re-parsing that output consumes the second
directive as the first one's URI candidate and then drops the orphaned URI
line, so the second pass loses the segment. -/
theorem filter_not_idempotent :
    filterM3U8Playlist resNone
        (filterM3U8Playlist resNone nonIdempotentManifest exampleBase)
        exampleBase ≠
      filterM3U8Playlist resNone nonIdempotentManifest exampleBase := by
  decide

/-- Claim C4 (amended): filtering is idempotent on every playlist in which
each duration directive is immediately followed by a usable URI line and no
duration directive contains the substring `DISCONTINUITY`. -/
theorem filter_idempotent_on_wellformed (res : Str → Str → Option Str)
    (content baseUrl : Str)
    (hg : goodLines (splitLines content) = true) :
    filterM3U8Playlist res (filterM3U8Playlist res content baseUrl) baseUrl =
      filterM3U8Playlist res content baseUrl := by
  obtain ⟨hH, hS, hT⟩ := parseLoop_shape res baseUrl
    (splitLines content).length (splitLines content) le_rfl true []
    (not_newline_mem_splitLines content) (by simp)
  have hstrict := hT hg (by simp)
  have hout : filterM3U8Playlist res content baseUrl =
      joinLines ((parseLoop res baseUrl (splitLines content) true []).1 ++
        blocksOf ((parseLoop res baseUrl (splitLines content) true []).2.filter
          (fun segment => !segment.isAd))) := by
    simp only [filterM3U8Playlist, parseM3U8]
    rw [rebuildLoop_no_flag]
  have hFprops : ∀ s ∈ (parseLoop res baseUrl (splitLines content)
        true []).2.filter (fun segment => !segment.isAd),
      SegStrict res baseUrl s ∧
        isAdSegment (resolveUrl res s.url baseUrl) = false := by
    intro s hs
    obtain ⟨hsS, hsad⟩ := List.mem_filter.mp hs
    have hstr := hstrict s hsS
    refine ⟨hstr, ?_⟩
    rw [← hstr.2.1]
    simpa using hsad
  by_cases hnil : (parseLoop res baseUrl (splitLines content) true []).1 ++
      blocksOf ((parseLoop res baseUrl (splitLines content) true []).2.filter
        (fun segment => !segment.isAd)) = []
  · rw [hout, hnil]
    rfl
  · have hgoodAll : ∀ x ∈ (parseLoop res baseUrl (splitLines content)
          true []).1 ++
        blocksOf ((parseLoop res baseUrl (splitLines content)
          true []).2.filter (fun segment => !segment.isAd)), GoodLine x := by
      intro x hx
      rcases List.mem_append.mp hx with hx | hx
      · exact (hH x hx).1
      · exact blocksOf_good (fun s hs => (hFprops s hs).1.shape) x hx
    have hsplit := splitLines_joinLines _ hnil
      (fun x hx => (hgoodAll x hx).2.2)
    obtain ⟨D, G, hGeq, hDhead, hDG, hGad⟩ := parseLoop_blocks_header res
      baseUrl ((parseLoop res baseUrl (splitLines content) true []).2.filter
        (fun segment => !segment.isAd)) hFprops
    have hGfilter : G.filter (fun segment => !segment.isAd) = G :=
      List.filter_eq_self.mpr (fun g hgm => by simp [hGad g hgm])
    conv_lhs => rw [hout]
    simp only [filterM3U8Playlist, parseM3U8]
    rw [hsplit, parseLoop_header_prefix res baseUrl _ _ [] hH, hGeq]
    simp only [hGfilter]
    rw [rebuildLoop_no_flag, List.append_assoc, hDG, rebuildLoop_no_flag]

/-- Witness for `filter_idempotent_on_wellformed` on the §8 example. -/
theorem filter_idempotent_on_wellformed_witness :
    goodLines (splitLines exampleManifest) = true ∧
    filterM3U8Playlist resNone
        (filterM3U8Playlist resNone exampleManifest exampleBase)
        exampleBase =
      filterM3U8Playlist resNone exampleManifest exampleBase :=
  ⟨by decide, filter_idempotent_on_wellformed resNone exampleManifest
    exampleBase (by decide)⟩

/-- Claim C9: the serialized filtered output starts with exactly the header
lines of the input playlist, character for character and in order —
filtering changes no header line. -/
theorem filter_preserves_header (res : Str → Str → Option Str)
    (content baseUrl : Str) :
    (parseM3U8 res content baseUrl).1 <+:
      splitLines (filterM3U8Playlist res content baseUrl) := by
  obtain ⟨hH, hS, _⟩ := parseLoop_shape res baseUrl
    (splitLines content).length (splitLines content) le_rfl true []
    (not_newline_mem_splitLines content) (by simp)
  have hout : filterM3U8Playlist res content baseUrl =
      joinLines ((parseLoop res baseUrl (splitLines content) true []).1 ++
        blocksOf ((parseLoop res baseUrl (splitLines content) true []).2.filter
          (fun segment => !segment.isAd))) := by
    simp only [filterM3U8Playlist, parseM3U8]
    rw [rebuildLoop_no_flag]
  by_cases hnil : (parseLoop res baseUrl (splitLines content) true []).1 ++
      blocksOf ((parseLoop res baseUrl (splitLines content) true []).2.filter
        (fun segment => !segment.isAd)) = []
  · have h1 : (parseLoop res baseUrl (splitLines content) true []).1 = [] :=
      (List.append_eq_nil.mp hnil).1
    rw [hout, hnil]
    simp only [parseM3U8, h1]
    exact List.nil_prefix
  · have hgoodAll : ∀ x ∈ (parseLoop res baseUrl (splitLines content)
          true []).1 ++
        blocksOf ((parseLoop res baseUrl (splitLines content)
          true []).2.filter (fun segment => !segment.isAd)), GoodLine x := by
      intro x hx
      rcases List.mem_append.mp hx with hx | hx
      · exact (hH x hx).1
      · exact @blocksOf_good res baseUrl _
          (fun s hs => hS s (List.mem_of_mem_filter hs)) x hx
    rw [hout, splitLines_joinLines _ hnil (fun x hx => (hgoodAll x hx).2.2)]
    exact ⟨_, rfl⟩

/-- Claim C10: the filter is total by construction (every branch of the
source is exception-free; the only throwing platform call, `new URL`, sits
inside a `try`/`catch` modelled by the `res` argument).  When URL resolution
always fails, every relative URI falls back to its original text, and the
filter behaves exactly as under identity resolution. -/
theorem filter_total_resolution_fallback :
    (∀ url baseUrl, resolveUrl resNone url baseUrl = url) ∧
    (∀ content baseUrl, filterM3U8Playlist resNone content baseUrl =
      filterM3U8Playlist resId content baseUrl) := by
  have hnone : ∀ url baseUrl, resolveUrl resNone url baseUrl = url := by
    intro url baseUrl
    simp only [resolveUrl, resNone]
    split <;> rfl
  have hid : ∀ url baseUrl, resolveUrl resId url baseUrl = url := by
    intro url baseUrl
    simp only [resolveUrl, resId]
    split <;> rfl
  refine ⟨hnone, fun content baseUrl => ?_⟩
  simp only [filterM3U8Playlist, parseM3U8]
  rw [parseLoop_congr resNone resId baseUrl
    (fun u => by rw [hnone u baseUrl, hid u baseUrl])
    (splitLines content).length (splitLines content) le_rfl true []]

/-- Witness for `network_recovery_bounded` at a concrete network fault. -/
theorem network_recovery_bounded_witness :
    (handleHLSError networkFault 3).shouldRetry = false ∧
    stepFault networkFault (stepFault networkFault (stepFault networkFault
      (stepFault networkFault { retryCount := 0, fatal := false }))) =
      { retryCount := 3, fatal := true } :=
  ⟨((network_recovery_bounded networkFault rfl).1 3 (by omega)).1,
   (network_recovery_bounded networkFault rfl).2⟩

end KVideo
